import Mathlib

set_option maxRecDepth 100000

/-!
Verification of the flow-meter acquisition pipeline (`record_data.py`).

This file is a shallow embedding of the acquisition pipeline of the
repository: the fixed regular expressions, `parse_block`, `init_csv` and the
line-reading loop of `log_data`.  Python floats parsed from decimal text are
modelled as exact rationals (the concrete decimals of every statement below
are short enough that Python `str(float(s))` round-trips to the same decimal
string), Python exceptions (`ValueError` from `float`, `int` and
`datetime.strptime`) are modelled with `Except`, and the CSV file is modelled
as the list of its rows.
-/

/-! ## Definitions: the shallow embedding of `record_data.py` -/

def isDigitDot (c : Char) : Bool := c.isDigit || c == '.'

def isPyWs (c : Char) : Bool :=
  c == ' ' || c == '\t' || c == '\n' || c == '\r' ||
  c == Char.ofNat 11 || c == Char.ofNat 12

def digitVal (c : Char) : Nat := c.toNat - 48

def natOfDigits (l : List Char) : Nat := l.foldl (fun a c => a * 10 + digitVal c) 0

def pyFloatDD (l : List Char) : Option ℚ :=
  if l.all isDigitDot && l.any Char.isDigit && l.count '.' ≤ 1 then
    let ip := l.takeWhile (fun c => c != '.')
    let fp := (l.dropWhile (fun c => c != '.')).drop 1
    some ((natOfDigits ip : ℚ) + (natOfDigits fp : ℚ) / (10 : ℚ) ^ fp.length)
  else none

def velKey : List Char := ['V', 'E', 'L', ':']

def fvelKey : List Char := ['F', 'V', 'E', 'L', ':']

def flowKey : List Char := ['F', 'L', 'O', 'W', ':']

def tryKey (key : List Char) (l : List Char) : Option (List Char) :=
  if key.isPrefixOf l then
    let r := (l.drop key.length).dropWhile isPyWs
    let d := r.takeWhile isDigitDot
    if d.isEmpty then none else some d
  else none

def scanKey (key : List Char) : List Char → Option (List Char)
  | [] => none
  | c :: cs =>
    match tryKey key (c :: cs) with
    | some d => some d
    | none => scanKey key cs

def tryUDQ (l : List Char) : Option (List Char × List Char × List Char) :=
  if ['U', 'P', ':'].isPrefixOf l then
    let r1 := l.drop 3
    let d1 := r1.takeWhile isDigitDot
    if d1.isEmpty then none else
    let r2 := r1.drop d1.length
    if [',', 'D', 'N', ':'].isPrefixOf r2 then
      let r3 := r2.drop 4
      let d2 := r3.takeWhile isDigitDot
      if d2.isEmpty then none else
      let r4 := r3.drop d2.length
      if [',', 'Q', '='].isPrefixOf r4 then
        let d3 := (r4.drop 3).takeWhile Char.isDigit
        if d3.isEmpty then none else some (d1, d2, d3)
      else none
    else none
  else none

def scanUDQ : List Char → Option (List Char × List Char × List Char)
  | [] => none
  | c :: cs =>
    match tryUDQ (c :: cs) with
    | some g => some g
    | none => scanUDQ cs

def tsGuard (l : List Char) : Bool :=
  match l with
  | a :: b :: '-' :: c :: d :: '-' :: e :: f :: _ =>
    a.isDigit && b.isDigit && c.isDigit && d.isDigit && e.isDigit && f.isDigit
  | _ => false

structure DateTime where
  year : Nat
  month : Nat
  day : Nat
  hour : Nat
  minute : Nat
  second : Nat
deriving DecidableEq, Repr

def rdH (l : List Char) : Option (Nat × List Char) :=
  match l with
  | a :: b :: rest =>
    if a.isDigit && b.isDigit && digitVal a * 10 + digitVal b ≤ 23 then
      some (digitVal a * 10 + digitVal b, rest)
    else if a.isDigit then some (digitVal a, b :: rest) else none
  | a :: rest => if a.isDigit then some (digitVal a, rest) else none
  | [] => none

def rdM (l : List Char) : Option (Nat × List Char) :=
  match l with
  | a :: b :: rest =>
    if a.isDigit && b.isDigit && digitVal a ≤ 5 then
      some (digitVal a * 10 + digitVal b, rest)
    else if a.isDigit then some (digitVal a, b :: rest) else none
  | a :: rest => if a.isDigit then some (digitVal a, rest) else none
  | [] => none

def rdS (l : List Char) : Option (Nat × List Char) :=
  match l with
  | a :: b :: rest =>
    if a.isDigit && b.isDigit && (digitVal a ≤ 5 || (a == '6' && digitVal b ≤ 1)) then
      some (digitVal a * 10 + digitVal b, rest)
    else if a.isDigit then some (digitVal a, b :: rest) else none
  | a :: rest => if a.isDigit then some (digitVal a, rest) else none
  | [] => none

def lit (c : Char) (l : List Char) : Option (List Char) :=
  match l with
  | x :: rest => if x == c then some rest else none
  | [] => none

def parseHMS (l : List Char) : Option (Nat × Nat × Nat) :=
  (rdH l).bind fun p1 =>
    (lit ':' p1.2).bind fun r2 =>
      (rdM r2).bind fun p2 =>
        (lit ':' p2.2).bind fun r3 =>
          (rdS r3).bind fun p3 =>
            if p3.2.isEmpty then some (p1.1, p2.1, p3.1) else none

def isLeap (y : Nat) : Bool := y % 4 == 0 && (y % 100 != 0 || y % 400 == 0)

def daysInMonth (y m : Nat) : Nat :=
  if m == 2 then (if isLeap y then 29 else 28)
  else if m == 4 || m == 6 || m == 9 || m == 11 then 30
  else 31

def strptimeDMY (l : List Char) : Option DateTime :=
  match l with
  | d1 :: d2 :: '-' :: m1 :: m2 :: '-' :: y1 :: y2 :: ' ' :: rest =>
    if d1.isDigit && d2.isDigit && m1.isDigit && m2.isDigit && y1.isDigit && y2.isDigit then
      let day := digitVal d1 * 10 + digitVal d2
      let month := digitVal m1 * 10 + digitVal m2
      let yy := digitVal y1 * 10 + digitVal y2
      let year := if yy ≤ 68 then 2000 + yy else 1900 + yy
      match parseHMS rest with
      | some (h, mi, s) =>
        if 1 ≤ day && day ≤ daysInMonth year month && 1 ≤ month && month ≤ 12 && s ≤ 59 then
          some ⟨year, month, day, h, mi, s⟩
        else none
      | none => none
    else none
  | _ => none

inductive PyErr where
  | valueError
deriving DecidableEq, Repr

instance exceptDecEq {e a : Type} [DecidableEq e] [DecidableEq a] :
    DecidableEq (Except e a) := fun x y =>
  match x, y with
  | Except.ok u, Except.ok v => decidable_of_iff (u = v) (by simp)
  | Except.ok _, Except.error _ => isFalse (by simp)
  | Except.error _, Except.ok _ => isFalse (by simp)
  | Except.error u, Except.error v => decidable_of_iff (u = v) (by simp)

structure PBState where
  timestamp : Option DateTime
  up : Option ℚ
  down : Option ℚ
  q : Option Nat
  flow : Option ℚ
  vel : Option ℚ
  fvel : Option ℚ
deriving DecidableEq, Repr

def initPB : PBState := ⟨none, none, none, none, none, none, none⟩

def stepTs (st : PBState) (line : String) : Except PyErr PBState :=
  if tsGuard line.data then
    match strptimeDMY line.data with
    | some dt => .ok { st with timestamp := some dt }
    | none => .error PyErr.valueError
  else .ok st

def stepUDQ (st : PBState) (line : String) : Except PyErr PBState :=
  match scanUDQ line.data with
  | some (a, b, c) =>
    match pyFloatDD a, pyFloatDD b with
    | some u, some d => .ok { st with up := some u, down := some d, q := some (natOfDigits c) }
    | _, _ => .error PyErr.valueError
  | none => .ok st

def stepFlow (st : PBState) (line : String) : Except PyErr PBState :=
  match scanKey flowKey line.data with
  | some d =>
    match pyFloatDD d with
    | some v => .ok { st with flow := some v }
    | none => .error PyErr.valueError
  | none => .ok st

def stepVel (st : PBState) (line : String) : Except PyErr PBState :=
  match scanKey velKey line.data with
  | some d =>
    match pyFloatDD d with
    | some v => .ok { st with vel := some v }
    | none => .error PyErr.valueError
  | none => .ok st

def stepFvel (st : PBState) (line : String) : Except PyErr PBState :=
  match scanKey fvelKey line.data with
  | some d =>
    match pyFloatDD d with
    | some v => .ok { st with fvel := some v }
    | none => .error PyErr.valueError
  | none => .ok st

def pstep (x : Except PyErr PBState) (f : PBState → Except PyErr PBState) :
    Except PyErr PBState :=
  match x with
  | .error e => .error e
  | .ok s => f s

def parseLine (st : PBState) (line : String) : Except PyErr PBState :=
  pstep (stepTs st line) fun s1 =>
    pstep (stepUDQ s1 line) fun s2 =>
      pstep (stepFlow s2 line) fun s3 =>
        pstep (stepVel s3 line) fun s4 => stepFvel s4 line

def runLines (st : PBState) : List String → Except PyErr PBState
  | [] => .ok st
  | x :: xs =>
    match parseLine st x with
    | .ok st2 => runLines st2 xs
    | .error e => .error e

structure Rec where
  ts : DateTime
  target : ℚ
  up : ℚ
  down : ℚ
  q : Nat
  flow : ℚ
  vel : ℚ
  fvel : ℚ
deriving DecidableEq, Repr

def finalize (t : ℚ) (st : PBState) : Option Rec :=
  match st.timestamp, st.up, st.down, st.q, st.flow, st.vel, st.fvel with
  | some ts, some u, some d, some q, some f, some v, some fv =>
    some ⟨ts, t, u, d, q, f, v, fv⟩
  | _, _, _, _, _, _, _ => none

def parseBlock (lines : List String) (t : ℚ) : Except PyErr (Option Rec) :=
  match runLines initPB lines with
  | .ok st => .ok (finalize t st)
  | .error e => .error e

def fracDigs : ℚ → Nat → String
  | _, 0 => ""
  | x, n + 1 =>
    if x = 0 then ""
    else
      let y := x * 10
      let d : Nat := y.num.toNat / y.den
      toString d ++ fracDigs (y - (d : ℚ)) n

def renderPos (x : ℚ) : String :=
  let ip : Nat := x.num.toNat / x.den
  let fr := x - (ip : ℚ)
  if fr = 0 then toString ip ++ ".0" else toString ip ++ "." ++ fracDigs fr 60

def renderFloat (x : ℚ) : String :=
  if x.num < 0 then "-" ++ renderPos (-x) else renderPos x

def pad2 (n : Nat) : String := if n < 10 then "0" ++ toString n else toString n

def fmtDT (dt : DateTime) : String :=
  toString dt.year ++ "-" ++ pad2 dt.month ++ "-" ++ pad2 dt.day ++ " " ++
    pad2 dt.hour ++ ":" ++ pad2 dt.minute ++ ":" ++ pad2 dt.second

def csvRow (r : Rec) : List String :=
  [fmtDT r.ts, renderFloat r.target, renderFloat r.up, renderFloat r.down,
    toString r.q, renderFloat r.flow, renderFloat r.vel, renderFloat r.fvel]

def serializeRow (cells : List String) : String := String.intercalate "," cells

def header : List String :=
  ["timestamp", "target_flow", "up", "down", "q", "flow_ls", "velocity_ms", "fvel_ms"]

def initCsv : Option (List (List String)) → List (List String)
  | none => [header]
  | some c => c

def pyStrip (s : String) : String :=
  ⟨((s.data.dropWhile isPyWs).reverse.dropWhile isPyWs).reverse⟩

def fvelBoundary (line : String) : Bool := ['F', 'V', 'E', 'L'].isPrefixOf line.data

structure LogState where
  buffer : List String
  rows : List (List String)
  live : List (DateTime × ℚ)
deriving DecidableEq, Repr

def initLog : LogState := ⟨[], [], []⟩

def logStep (t : ℚ) (st : LogState) (raw : String) : LogState × Option PyErr :=
  let line := pyStrip raw
  if line.data.isEmpty then (st, none)
  else
    let buf := st.buffer ++ [line]
    if fvelBoundary line then
      match parseBlock buf t with
      | .error e => ({ st with buffer := buf }, some e)
      | .ok none => ({ st with buffer := [] }, none)
      | .ok (some r) =>
        (⟨[], st.rows ++ [csvRow r], st.live ++ [(r.ts, r.flow)]⟩, none)
    else ({ st with buffer := buf }, none)

def logRun (t : ℚ) (st : LogState) : List String → LogState × Option PyErr
  | [] => (st, none)
  | raw :: rest =>
    match logStep t st raw with
    | (st2, some e) => (st2, some e)
    | (st2, none) => logRun t st2 rest

def sessRows (t : ℚ) (raws : List String) : List (List String) :=
  (logRun t initLog raws).1.rows

def sessionFile (fs : Option (List (List String))) (t : ℚ) (raws : List String) :
    List (List String) :=
  initCsv fs ++ sessRows t raws

def override {α : Type} (a b : Option α) : Option α :=
  match b with
  | some v => some v
  | none => a

def lastVal {α : Type} (f : String → Option α) (L : List String) : Option α :=
  L.foldl (fun acc x => override acc (f x)) none

def tsVal (line : String) : Option DateTime :=
  if tsGuard line.data then strptimeDMY line.data else none

def udqVal (line : String) : Option (ℚ × ℚ × Nat) :=
  match scanUDQ line.data with
  | some (a, b, c) =>
    match pyFloatDD a, pyFloatDD b with
    | some u, some d => some (u, d, natOfDigits c)
    | _, _ => none
  | none => none

def udqUpVal (line : String) : Option ℚ := (udqVal line).map fun x => x.1

def udqDownVal (line : String) : Option ℚ := (udqVal line).map fun x => x.2.1

def udqQVal (line : String) : Option Nat := (udqVal line).map fun x => x.2.2

def flowVal (line : String) : Option ℚ := (scanKey flowKey line.data).bind pyFloatDD

def velVal (line : String) : Option ℚ := (scanKey velKey line.data).bind pyFloatDD

def fvelVal (line : String) : Option ℚ := (scanKey fvelKey line.data).bind pyFloatDD

def tsOk (line : String) : Bool := !tsGuard line.data || (strptimeDMY line.data).isSome

def udqOk (line : String) : Bool :=
  match scanUDQ line.data with
  | some (a, b, _) => (pyFloatDD a).isSome && (pyFloatDD b).isSome
  | none => true

def flowOk (line : String) : Bool :=
  match scanKey flowKey line.data with
  | some d => (pyFloatDD d).isSome
  | none => true

def velOk (line : String) : Bool :=
  match scanKey velKey line.data with
  | some d => (pyFloatDD d).isSome
  | none => true

def fvelOk (line : String) : Bool :=
  match scanKey fvelKey line.data with
  | some d => (pyFloatDD d).isSome
  | none => true

def lineOk (line : String) : Bool :=
  tsOk line && udqOk line && flowOk line && velOk line && fvelOk line

def updState (st : PBState) (line : String) : PBState :=
  ⟨override st.timestamp (tsVal line), override st.up (udqUpVal line),
    override st.down (udqDownVal line), override st.q (udqQVal line),
    override st.flow (flowVal line), override st.vel (velVal line),
    override st.fvel (fvelVal line)⟩

def lastMatchLine (p : String → Bool) (L : List String) : Option String :=
  L.foldl (fun acc x => if p x then some x else acc) none

def velMatch (line : String) : Bool := (scanKey velKey line.data).isSome

def linesA : List String :=
  ["01-01-24 12:00:00", "UP:10.2,DN:9.8,Q=3", "FLOW: 1.523", "VEL: 0.44", "FVEL: 0.41"]

def tsA : DateTime := ⟨2024, 1, 1, 12, 0, 0⟩

def recA : Rec := ⟨tsA, 3/2, 51/5, 49/5, 3, 1523/1000, 41/100, 41/100⟩

def rowActualA : String := "2024-01-01 12:00:00,1.5,10.2,9.8,3,1.523,0.41,0.41"

def rowClaimedA : String := "2024-01-01 12:00:00,1.5,10.2,9.8,3,1.523,0.44,0.41"

def linesB : List String :=
  ["01-01-24 12:00:00", "UP:10.2,DN:9.8,Q=3", "FLOW: 1.523", "FVEL: 0.41"]

def linesC3x : List String := ["UP:1..2,DN:3,Q=4"]

def linesC3w : List String := ["FVEL: 0.41"]

def linesC4 : List String :=
  ["UP:1,DN:2,Q=3", "FLOW: 1..2", "FVEL: 0.5", "01-01-24 12:00:00",
    "UP:10.2,DN:9.8,Q=3", "FLOW: 1.523", "VEL: 0.44", "FVEL: 0.41"]

def bufC4 : List String := ["UP:1,DN:2,Q=3", "FLOW: 1..2", "FVEL: 0.5"]

def rawC4w : String := "FVEL: 0.5"

def linesC5 : List String :=
  ["01-01-24 12:00:00", "UP:10.2,DN:9.8,Q=3", "FLOW: 1.0", "FLOW: 2.5",
    "VEL: 0.3", "FVEL: 0.2"]

def recC5 : Rec := ⟨tsA, 7, 51/5, 49/5, 3, 5/2, 1/5, 1/5⟩

def rawC8x : String := "FVEL: 1..2"

def rawBlankW : String := "   "

def rawPlainW : String := "FLOW: 1.0"

def rawDropW : String := "FVEL: 0.9"

def line9b : String := "FVEL VEL: 3 FVEL: 7"

def lines9 : List String :=
  ["01-01-24 12:00:00", "UP:1,DN:2,Q=3", "FLOW: 4", line9b]

def rec9 : Rec := ⟨tsA, 1, 1, 2, 3, 4, 3, 7⟩

def line9w : String := "FVEL: 0.41"

def d9w : List Char := ['0', '.', '4', '1']

def linesNum10 : List String := ["FLOW: 1.2.3"]

def linesTs10 : List String := ["01-01-24 XYZ"]

/-! ## Theorems -/

@[simp]
theorem override_none {α : Type} (a : Option α) : override a none = a := rfl

@[simp]
theorem override_some {α : Type} (a : Option α) (v : α) : override a (some v) = some v := rfl

theorem override_assoc {α : Type} (a b c : Option α) :
    override (override a b) c = override a (override b c) := by
  cases c <;> cases b <;> rfl

@[simp]
theorem override_none_left {α : Type} (b : Option α) : override none b = b := by
  cases b <;> rfl

theorem foldl_override {α : Type} (f : String → Option α) :
    ∀ (L : List String) (a : Option α),
      L.foldl (fun acc x => override acc (f x)) a = override a (lastVal f L) := by
  intro L
  induction L with
  | nil => intro a; rfl
  | cons x xs ih =>
    intro a
    have h1 : lastVal f (x :: xs) = override (f x) (lastVal f xs) := by
      show xs.foldl _ (override none (f x)) = _
      rw [ih (override none (f x)), override_assoc, override_none_left]
    simp only [List.foldl_cons, ih (override a (f x)), h1, override_assoc]

theorem lastVal_cons {α : Type} (f : String → Option α) (x : String) (L : List String) :
    lastVal f (x :: L) = override (f x) (lastVal f L) := by
  show L.foldl _ (override none (f x)) = _
  rw [foldl_override, override_none_left]

theorem lastVal_concat {α : Type} (f : String → Option α) (L : List String) (x : String) :
    lastVal f (L ++ [x]) = override (lastVal f L) (f x) := by
  unfold lastVal
  rw [List.foldl_append]
  rfl

theorem lastVal_isSome {α : Type} (f : String → Option α) (L : List String) :
    (lastVal f L).isSome = L.any fun x => (f x).isSome := by
  induction L with
  | nil => rfl
  | cons x xs ih =>
    rw [lastVal_cons, List.any_cons, ← ih]
    cases h : lastVal f xs <;> cases h2 : f x <;> simp [override]

theorem stepTs_eq (st : PBState) (line : String) :
    stepTs st line =
      if tsOk line then
        Except.ok (⟨override st.timestamp (tsVal line), st.up, st.down, st.q,
          st.flow, st.vel, st.fvel⟩ : PBState)
      else Except.error PyErr.valueError := by
  unfold stepTs tsOk tsVal
  cases h1 : tsGuard line.data <;> cases h2 : strptimeDMY line.data <;> simp [h1, h2, override]

theorem stepUDQ_eq (st : PBState) (line : String) :
    stepUDQ st line =
      if udqOk line then
        Except.ok (⟨st.timestamp, override st.up (udqUpVal line),
          override st.down (udqDownVal line), override st.q (udqQVal line),
          st.flow, st.vel, st.fvel⟩ : PBState)
      else Except.error PyErr.valueError := by
  unfold stepUDQ udqOk udqUpVal udqDownVal udqQVal udqVal
  cases h1 : scanUDQ line.data with
  | none => simp
  | some g =>
    obtain ⟨a, b, c⟩ := g
    cases h2 : pyFloatDD a <;> cases h3 : pyFloatDD b <;> simp [h2, h3, override]

theorem stepFlow_eq (st : PBState) (line : String) :
    stepFlow st line =
      if flowOk line then
        Except.ok (⟨st.timestamp, st.up, st.down, st.q,
          override st.flow (flowVal line), st.vel, st.fvel⟩ : PBState)
      else Except.error PyErr.valueError := by
  unfold stepFlow flowOk flowVal
  cases h1 : scanKey flowKey line.data with
  | none => simp
  | some d => cases h2 : pyFloatDD d <;> simp [h2, override]

theorem stepVel_eq (st : PBState) (line : String) :
    stepVel st line =
      if velOk line then
        Except.ok (⟨st.timestamp, st.up, st.down, st.q, st.flow,
          override st.vel (velVal line), st.fvel⟩ : PBState)
      else Except.error PyErr.valueError := by
  unfold stepVel velOk velVal
  cases h1 : scanKey velKey line.data with
  | none => simp
  | some d => cases h2 : pyFloatDD d <;> simp [h2, override]

theorem stepFvel_eq (st : PBState) (line : String) :
    stepFvel st line =
      if fvelOk line then
        Except.ok (⟨st.timestamp, st.up, st.down, st.q, st.flow, st.vel,
          override st.fvel (fvelVal line)⟩ : PBState)
      else Except.error PyErr.valueError := by
  unfold stepFvel fvelOk fvelVal
  cases h1 : scanKey fvelKey line.data with
  | none => simp
  | some d => cases h2 : pyFloatDD d <;> simp [h2, override]

theorem parseLine_eq (st : PBState) (line : String) :
    parseLine st line =
      if lineOk line then Except.ok (updState st line) else Except.error PyErr.valueError := by
  unfold parseLine lineOk
  rw [stepTs_eq]
  cases h1 : tsOk line
  · simp [pstep]
  · simp only [if_true, Bool.true_and, pstep]
    rw [stepUDQ_eq]
    cases h2 : udqOk line
    · simp [pstep]
    · simp only [if_true, Bool.true_and, pstep]
      rw [stepFlow_eq]
      cases h3 : flowOk line
      · simp [pstep]
      · simp only [if_true, Bool.true_and, pstep]
        rw [stepVel_eq]
        cases h4 : velOk line
        · simp [pstep]
        · simp only [if_true, Bool.true_and, pstep]
          rw [stepFvel_eq]
          cases h5 : fvelOk line
          · simp
          · simp [updState]

theorem runLines_eq :
    ∀ (L : List String) (st : PBState),
      runLines st L =
        if L.all lineOk then Except.ok (L.foldl updState st)
        else Except.error PyErr.valueError := by
  intro L
  induction L with
  | nil => intro st; rfl
  | cons x xs ih =>
    intro st
    show (match parseLine st x with
      | .ok st2 => runLines st2 xs
      | .error e => .error e) = _
    rw [parseLine_eq]
    cases h : lineOk x
    · simp [h]
    · simp [h, ih]

theorem foldl_updState :
    ∀ (L : List String) (st : PBState),
      L.foldl updState st =
        ⟨override st.timestamp (lastVal tsVal L), override st.up (lastVal udqUpVal L),
          override st.down (lastVal udqDownVal L), override st.q (lastVal udqQVal L),
          override st.flow (lastVal flowVal L), override st.vel (lastVal velVal L),
          override st.fvel (lastVal fvelVal L)⟩ := by
  intro L
  induction L with
  | nil => intro st; simp [lastVal]
  | cons x xs ih =>
    intro st
    simp only [List.foldl_cons, ih, lastVal_cons, updState, override_assoc]

theorem parseBlock_ok (L : List String) (t : ℚ) (res : Option Rec)
    (h : parseBlock L t = Except.ok res) :
    L.all lineOk = true ∧ res = finalize t (L.foldl updState initPB) := by
  unfold parseBlock at h
  rw [runLines_eq] at h
  cases h2 : L.all lineOk <;> rw [h2] at h <;> simp_all

theorem finalize_isSome (t : ℚ) (st : PBState) :
    (finalize t st).isSome =
      (st.timestamp.isSome && st.up.isSome && st.down.isSome && st.q.isSome &&
        st.flow.isSome && st.vel.isSome && st.fvel.isSome) := by
  obtain ⟨ts, u, d, q, f, v, fv⟩ := st
  unfold finalize
  cases ts <;> cases u <;> cases d <;> cases q <;> cases f <;> cases v <;> cases fv <;> rfl

theorem finalize_some (t : ℚ) (st : PBState) (r : Rec) (h : finalize t st = some r) :
    st.timestamp = some r.ts ∧ st.up = some r.up ∧ st.down = some r.down ∧
      st.q = some r.q ∧ st.flow = some r.flow ∧ st.vel = some r.vel ∧
      st.fvel = some r.fvel ∧ r.target = t := by
  obtain ⟨ts, u, d, q, f, v, fv⟩ := st
  unfold finalize at h
  cases ts <;> cases u <;> cases d <;> cases q <;> cases f <;> cases v <;> cases fv <;>
    simp_all
  obtain ⟨rfl⟩ := h
  simp

theorem isPrefixOf_decomp {α : Type} [BEq α] [LawfulBEq α] (k l : List α)
    (h : k.isPrefixOf l = true) : ∃ r, l = k ++ r := by
  obtain ⟨t, ht⟩ := List.isPrefixOf_iff_prefix.mp h
  exact ⟨t, ht.symm⟩

theorem tryKey_isPrefixOf (k l d : List Char) (h : tryKey k l = some d) :
    k.isPrefixOf l = true := by
  unfold tryKey at h
  by_cases hp : k.isPrefixOf l = true
  · exact hp
  · simp [hp] at h

theorem tryKey_fvel_eq_vel (r : List Char) :
    tryKey fvelKey (fvelKey ++ r) = tryKey velKey (velKey ++ r) := by
  have h1 : fvelKey.isPrefixOf (fvelKey ++ r) = true :=
    List.isPrefixOf_iff_prefix.mpr (List.prefix_append fvelKey r)
  have h2 : velKey.isPrefixOf (velKey ++ r) = true :=
    List.isPrefixOf_iff_prefix.mpr (List.prefix_append velKey r)
  unfold tryKey
  rw [h1, h2, List.drop_left, List.drop_left]

theorem scanKey_of_tryKey (k : List Char) (c : Char) (cs : List Char) (d : List Char)
    (h : tryKey k (c :: cs) = some d) : scanKey k (c :: cs) = some d := by
  simp [scanKey, h]

theorem scanKey_vel_of_tryKey_fvel (l : List Char) (d : List Char)
    (h : tryKey fvelKey l = some d) : scanKey velKey l = some d := by
  obtain ⟨r, rfl⟩ := isPrefixOf_decomp fvelKey l (tryKey_isPrefixOf fvelKey l d h)
  have hv : tryKey velKey (velKey ++ r) = some d := by rw [← tryKey_fvel_eq_vel]; exact h
  have hshape : fvelKey ++ r = 'F' :: (velKey ++ r) := rfl
  rw [hshape]
  have hx : tryKey velKey ('F' :: (velKey ++ r)) = none := by
    unfold tryKey
    simp [velKey, List.isPrefixOf]
  have hshape2 : velKey ++ r = 'V' :: (['E', 'L', ':'] ++ r) := rfl
  rw [scanKey, hx, hshape2, scanKey, ← hshape2, hv]

theorem vel_isSome_of_fvel (l : List Char)
    (h : (scanKey fvelKey l).isSome = true) : (scanKey velKey l).isSome = true := by
  induction l with
  | nil => simp [scanKey] at h
  | cons c cs ih =>
    rw [scanKey] at h
    cases htry : tryKey fvelKey (c :: cs) with
    | some d =>
      rw [scanKey_vel_of_tryKey_fvel (c :: cs) d htry]
      rfl
    | none =>
      rw [htry] at h
      simp only at h
      have hcs := ih h
      rw [scanKey]
      cases tryKey velKey (c :: cs) <;> simp [hcs]

theorem lastMatchLine_concat (p : String → Bool) (L : List String) (x : String) :
    lastMatchLine p (L ++ [x]) = if p x then some x else lastMatchLine p L := by
  unfold lastMatchLine
  rw [List.foldl_append]
  rfl

theorem lastMatchLine_mem (p : String → Bool) (L : List String) (s : String)
    (h : lastMatchLine p L = some s) : s ∈ L := by
  induction L using List.reverseRecOn with
  | nil => simp [lastMatchLine] at h
  | append_singleton F x ih =>
    rw [lastMatchLine_concat] at h
    cases hp : p x
    · rw [hp] at h
      simp only [if_neg Bool.false_ne_true] at h
      exact List.mem_append_left _ (ih h)
    · rw [hp] at h
      simp only [if_pos rfl] at h
      obtain rfl := (Option.some_inj.mp h).symm
      exact List.mem_append_right _ (List.mem_singleton.mpr rfl)

theorem lastVals_of_boundary (F : List String) (L : String) (d : List Char)
    (h1 : lastMatchLine velMatch F = some L) (h2 : tryKey fvelKey L.data = some d)
    (h3 : (pyFloatDD d).isSome = true) :
    lastVal velVal F = pyFloatDD d ∧ lastVal fvelVal F = pyFloatDD d := by
  induction F using List.reverseRecOn with
  | nil => simp [lastMatchLine] at h1
  | append_singleton F x ih =>
    rw [lastMatchLine_concat] at h1
    rw [lastVal_concat, lastVal_concat]
    cases hpx : velMatch x
    · rw [hpx] at h1
      simp only [if_neg Bool.false_ne_true] at h1
      have hvx : velVal x = none := by
        unfold velVal
        cases hs : scanKey velKey x.data with
        | none => rfl
        | some dd =>
          exfalso
          unfold velMatch at hpx
          rw [hs] at hpx
          simp at hpx
      have hfx : fvelVal x = none := by
        unfold fvelVal
        cases hs : scanKey fvelKey x.data with
        | none => rfl
        | some dd =>
          exfalso
          have := vel_isSome_of_fvel x.data (by rw [hs]; rfl)
          unfold velMatch at hpx
          rw [this] at hpx
          simp at hpx
      rw [hvx, hfx, override_none, override_none]
      exact ih h1
    · rw [hpx] at h1
      simp only [if_pos rfl] at h1
      obtain rfl : x = L := Option.some_inj.mp h1
      obtain ⟨v, hv3⟩ := Option.isSome_iff_exists.mp h3
      have hv : scanKey velKey x.data = some d := scanKey_vel_of_tryKey_fvel x.data d h2
      have hf : scanKey fvelKey x.data = some d := by
        obtain ⟨r, hr⟩ := isPrefixOf_decomp fvelKey x.data (tryKey_isPrefixOf fvelKey x.data d h2)
        rw [hr] at h2 ⊢
        exact scanKey_of_tryKey fvelKey 'F' _ d h2
      constructor
      · unfold velVal
        rw [hv]
        simp [hv3]
      · unfold fvelVal
        rw [hf]
        simp [hv3]

theorem logStep_blank (t : ℚ) (st : LogState) (raw : String) (h : pyStrip raw = "") :
    logStep t st raw = (st, none) := by
  unfold logStep
  rw [h]
  rfl

theorem logStep_plain (t : ℚ) (st : LogState) (raw : String)
    (h1 : (pyStrip raw).data.isEmpty = false) (h2 : fvelBoundary (pyStrip raw) = false) :
    logStep t st raw = (⟨st.buffer ++ [pyStrip raw], st.rows, st.live⟩, none) := by
  simp only [logStep]
  rw [h1, h2]
  rfl

theorem logStep_drop (t : ℚ) (st : LogState) (raw : String)
    (h1 : (pyStrip raw).data.isEmpty = false) (h2 : fvelBoundary (pyStrip raw) = true)
    (h3 : parseBlock (st.buffer ++ [pyStrip raw]) t = Except.ok none) :
    logStep t st raw = (⟨[], st.rows, st.live⟩, none) := by
  simp only [logStep]
  rw [h1, h2, h3]
  rfl

theorem logStep_record (t : ℚ) (st : LogState) (raw : String) (r : Rec)
    (h1 : (pyStrip raw).data.isEmpty = false) (h2 : fvelBoundary (pyStrip raw) = true)
    (h3 : parseBlock (st.buffer ++ [pyStrip raw]) t = Except.ok (some r)) :
    logStep t st raw = (⟨[], st.rows ++ [csvRow r], st.live ++ [(r.ts, r.flow)]⟩, none) := by
  simp only [logStep]
  rw [h1, h2, h3]
  rfl

theorem logStep_raise (t : ℚ) (st : LogState) (raw : String) (e : PyErr)
    (h1 : (pyStrip raw).data.isEmpty = false) (h2 : fvelBoundary (pyStrip raw) = true)
    (h3 : parseBlock (st.buffer ++ [pyStrip raw]) t = Except.error e) :
    logStep t st raw = (⟨st.buffer ++ [pyStrip raw], st.rows, st.live⟩, some e) := by
  simp only [logStep]
  rw [h1, h2, h3]
  rfl

theorem logRun_cons_ok (t : ℚ) (st st2 : LogState) (raw : String) (rest : List String)
    (h : logStep t st raw = (st2, none)) :
    logRun t st (raw :: rest) = logRun t st2 rest := by
  show (match logStep t st raw with
    | (st2, some e) => (st2, some e)
    | (st2, none) => logRun t st2 rest) = logRun t st2 rest
  rw [h]

theorem logStep_rows (t : ℚ) (st : LogState) (raw : String) :
    (logStep t st raw).1.rows = st.rows ∨
      ∃ r, (logStep t st raw).1.rows = st.rows ++ [csvRow r] := by
  simp only [logStep]
  split
  · exact Or.inl rfl
  · split
    · split
      · exact Or.inl rfl
      · exact Or.inl rfl
      · exact Or.inr ⟨_, rfl⟩
    · exact Or.inl rfl

theorem logRun_rows_mem (t : ℚ) :
    ∀ (L : List String) (st : LogState) (row : List String),
      row ∈ (logRun t st L).1.rows → row ∈ st.rows ∨ ∃ r, row = csvRow r := by
  intro L
  induction L with
  | nil => intro st row h; exact Or.inl h
  | cons raw rest ih =>
    intro st row h
    have hshape := logStep_rows t st raw
    rcases hs : logStep t st raw with ⟨st2, e⟩
    rw [hs] at hshape
    have hmem : row ∈ st2.rows ∨ ∃ r, row = csvRow r := by
      cases e with
      | none =>
        rw [logRun_cons_ok t st st2 raw rest hs] at h
        exact ih st2 row h
      | some e =>
        unfold logRun at h
        rw [hs] at h
        exact Or.inl h
    rcases hmem with hmem | hmem
    · rcases hshape with hrows | ⟨r, hrows⟩
      · rw [hrows] at hmem
        exact Or.inl hmem
      · rw [hrows] at hmem
        rcases List.mem_append.mp hmem with hmem | hmem
        · exact Or.inl hmem
        · exact Or.inr ⟨r, List.mem_singleton.mp hmem⟩
    · exact Or.inr hmem

theorem dash_mem_fmtDT (dt : DateTime) : '-' ∈ (fmtDT dt).data := by
  unfold fmtDT
  simp [String.data_append, List.mem_append]

theorem csvRow_ne_header (r : Rec) : csvRow r ≠ header := by
  intro h
  have h0 : fmtDT r.ts = "timestamp" := by
    have h1 := congrArg List.head? h
    simpa [csvRow, header] using h1
  have hd := dash_mem_fmtDT r.ts
  rw [h0] at hd
  exact absurd hd (by decide)

theorem count_header_once (rows : List (List String))
    (h : ∀ row ∈ rows, row ≠ header) :
    List.count header (header :: rows) = 1 := by
  rw [List.count_cons_self, List.count_eq_zero.mpr fun hmem => h header hmem rfl]

theorem lineOk_parts (x : String) (h : lineOk x = true) :
    tsOk x = true ∧ udqOk x = true ∧ flowOk x = true ∧ velOk x = true ∧ fvelOk x = true := by
  unfold lineOk at h
  simp only [Bool.and_eq_true] at h
  tauto

theorem tsVal_isSome_of_ok (x : String) (h : lineOk x = true) :
    (tsVal x).isSome = tsGuard x.data := by
  have h1 := (lineOk_parts x h).1
  unfold tsOk at h1
  unfold tsVal
  cases hg : tsGuard x.data
  · simp
  · rw [hg] at h1
    simp only [Bool.not_true, Bool.false_or] at h1
    simp [h1]

theorem udqVal_isSome_of_ok (x : String) (h : lineOk x = true) :
    (udqVal x).isSome = (scanUDQ x.data).isSome := by
  have h2 := (lineOk_parts x h).2.1
  unfold udqOk at h2
  unfold udqVal
  cases hs : scanUDQ x.data with
  | none => rfl
  | some g =>
    obtain ⟨a, b, c⟩ := g
    rw [hs] at h2
    simp only [Bool.and_eq_true] at h2
    obtain ⟨u, hu⟩ := Option.isSome_iff_exists.mp h2.1
    obtain ⟨v, hv⟩ := Option.isSome_iff_exists.mp h2.2
    simp [hu, hv]

theorem flowVal_isSome_of_ok (x : String) (h : lineOk x = true) :
    (flowVal x).isSome = (scanKey flowKey x.data).isSome := by
  have h3 := (lineOk_parts x h).2.2.1
  unfold flowOk at h3
  unfold flowVal
  cases hs : scanKey flowKey x.data with
  | none => rfl
  | some d =>
    rw [hs] at h3
    obtain ⟨u, hu⟩ := Option.isSome_iff_exists.mp h3
    simp [hu]

theorem velVal_isSome_of_ok (x : String) (h : lineOk x = true) :
    (velVal x).isSome = (scanKey velKey x.data).isSome := by
  have h4 := (lineOk_parts x h).2.2.2.1
  unfold velOk at h4
  unfold velVal
  cases hs : scanKey velKey x.data with
  | none => rfl
  | some d =>
    rw [hs] at h4
    obtain ⟨u, hu⟩ := Option.isSome_iff_exists.mp h4
    simp [hu]

theorem fvelVal_isSome_of_ok (x : String) (h : lineOk x = true) :
    (fvelVal x).isSome = (scanKey fvelKey x.data).isSome := by
  have h5 := (lineOk_parts x h).2.2.2.2
  unfold fvelOk at h5
  unfold fvelVal
  cases hs : scanKey fvelKey x.data with
  | none => rfl
  | some d =>
    rw [hs] at h5
    obtain ⟨u, hu⟩ := Option.isSome_iff_exists.mp h5
    simp [hu]

theorem any_congr_mem (L : List String) (f g : String → Bool)
    (h : ∀ x ∈ L, f x = g x) : L.any f = L.any g := by
  induction L with
  | nil => rfl
  | cons x xs ih =>
    rw [List.any_cons, List.any_cons, h x (List.mem_cons_self x xs),
      ih fun y hy => h y (List.mem_cons_of_mem x hy)]

theorem c3_completeness (F : List String) (t : ℚ) (res : Option Rec)
    (h : parseBlock F t = Except.ok res) :
    res.isSome =
      ((F.any fun l => tsGuard l.data) && (F.any fun l => (scanUDQ l.data).isSome) &&
        (F.any fun l => (scanKey flowKey l.data).isSome) &&
        (F.any fun l => (scanKey velKey l.data).isSome) &&
        (F.any fun l => (scanKey fvelKey l.data).isSome)) := by
  obtain ⟨hall, hres⟩ := parseBlock_ok F t res h
  have hOk : ∀ x ∈ F, lineOk x = true := by
    intro x hx
    exact List.all_eq_true.mp hall x hx
  subst hres
  rw [finalize_isSome, foldl_updState]
  simp only [initPB, override_none_left]
  rw [lastVal_isSome, lastVal_isSome, lastVal_isSome, lastVal_isSome, lastVal_isSome,
    lastVal_isSome, lastVal_isSome]
  have e1 : (F.any fun l => (tsVal l).isSome) = (F.any fun l => tsGuard l.data) :=
    any_congr_mem F _ _ fun x hx => tsVal_isSome_of_ok x (hOk x hx)
  have e2 : (F.any fun l => (udqUpVal l).isSome) = (F.any fun l => (scanUDQ l.data).isSome) :=
    any_congr_mem F _ _ fun x hx => by
      rw [udqUpVal, ← udqVal_isSome_of_ok x (hOk x hx)]
      cases udqVal x <;> rfl
  have e3 : (F.any fun l => (udqDownVal l).isSome) = (F.any fun l => (scanUDQ l.data).isSome) :=
    any_congr_mem F _ _ fun x hx => by
      rw [udqDownVal, ← udqVal_isSome_of_ok x (hOk x hx)]
      cases udqVal x <;> rfl
  have e4 : (F.any fun l => (udqQVal l).isSome) = (F.any fun l => (scanUDQ l.data).isSome) :=
    any_congr_mem F _ _ fun x hx => by
      rw [udqQVal, ← udqVal_isSome_of_ok x (hOk x hx)]
      cases udqVal x <;> rfl
  have e5 : (F.any fun l => (flowVal l).isSome) = (F.any fun l => (scanKey flowKey l.data).isSome) :=
    any_congr_mem F _ _ fun x hx => flowVal_isSome_of_ok x (hOk x hx)
  have e6 : (F.any fun l => (velVal l).isSome) = (F.any fun l => (scanKey velKey l.data).isSome) :=
    any_congr_mem F _ _ fun x hx => velVal_isSome_of_ok x (hOk x hx)
  have e7 : (F.any fun l => (fvelVal l).isSome) = (F.any fun l => (scanKey fvelKey l.data).isSome) :=
    any_congr_mem F _ _ fun x hx => fvelVal_isSome_of_ok x (hOk x hx)
  rw [e1, e2, e3, e4, e5, e6, e7]
  cases F.any fun l => tsGuard l.data <;>
    cases F.any fun l => (scanUDQ l.data).isSome <;>
    cases F.any fun l => (scanKey flowKey l.data).isSome <;>
    cases F.any fun l => (scanKey velKey l.data).isSome <;>
    cases F.any fun l => (scanKey fvelKey l.data).isSome <;> rfl

theorem c5_last_match (F : List String) (t : ℚ) (r : Rec)
    (h : parseBlock F t = Except.ok (some r)) :
    lastVal tsVal F = some r.ts ∧ lastVal udqUpVal F = some r.up ∧
      lastVal udqDownVal F = some r.down ∧ lastVal udqQVal F = some r.q ∧
      lastVal flowVal F = some r.flow ∧ lastVal velVal F = some r.vel ∧
      lastVal fvelVal F = some r.fvel := by
  obtain ⟨hall, hres⟩ := parseBlock_ok F t (some r) h
  have hfin := finalize_some t _ r hres.symm
  rw [foldl_updState] at hfin
  simp only [initPB, override_none_left] at hfin
  exact ⟨hfin.1, hfin.2.1, hfin.2.2.1, hfin.2.2.2.1, hfin.2.2.2.2.1,
    hfin.2.2.2.2.2.1, hfin.2.2.2.2.2.2.1⟩

theorem c9_pattern_overlap :
    (∀ l : List Char, (scanKey fvelKey l).isSome = true → (scanKey velKey l).isSome = true) ∧
    (∀ (F : List String) (t : ℚ) (r : Rec) (L : String) (d : List Char),
      parseBlock F t = Except.ok (some r) → lastMatchLine velMatch F = some L →
      tryKey fvelKey L.data = some d → r.vel = r.fvel) := by
  refine ⟨vel_isSome_of_fvel, ?_⟩
  intro F t r L d h hlast htry
  obtain ⟨hall, hres⟩ := parseBlock_ok F t (some r) h
  have hfin := finalize_some t _ r hres.symm
  rw [foldl_updState] at hfin
  simp only [initPB, override_none_left] at hfin
  have hv : lastVal velVal F = some r.vel := hfin.2.2.2.2.2.1
  have hf : lastVal fvelVal F = some r.fvel := hfin.2.2.2.2.2.2.1
  have hLok : lineOk L = true :=
    List.all_eq_true.mp hall L (lastMatchLine_mem velMatch F L hlast)
  have hscan : scanKey fvelKey L.data = some d := by
    obtain ⟨rr, hrr⟩ := isPrefixOf_decomp fvelKey L.data (tryKey_isPrefixOf fvelKey L.data d htry)
    rw [hrr] at htry ⊢
    exact scanKey_of_tryKey fvelKey 'F' _ d htry
  have h3 : (pyFloatDD d).isSome = true := by
    have h5 := (lineOk_parts L hLok).2.2.2.2
    unfold fvelOk at h5
    rw [hscan] at h5
    exact h5
  obtain ⟨hv2, hf2⟩ := lastVals_of_boundary F L d hlast htry h3
  rw [hv2] at hv
  rw [hf2] at hf
  rw [hv] at hf
  exact Option.some_inj.mp hf

theorem c1_scenarioA_row :
    parseBlock linesA (3/2) = Except.ok (some recA) ∧
      serializeRow (csvRow recA) = rowActualA ∧ rowActualA ≠ rowClaimedA := by
  refine ⟨by with_unfolding_all decide, by with_unfolding_all decide, by decide⟩

theorem c2_scenarioB_logged :
    parseBlock linesB (3/2) = Except.ok (some recA) ∧
      logRun (3/2) initLog linesB = (⟨[], [csvRow recA], [(tsA, recA.flow)]⟩, none) := by
  refine ⟨by with_unfolding_all decide, by with_unfolding_all decide⟩

theorem c3_cex : parseBlock linesC3x 1 = Except.error PyErr.valueError := by
  with_unfolding_all decide

theorem c3_witness :
    (Option.none : Option Rec).isSome =
      ((linesC3w.any fun l => tsGuard l.data) &&
        (linesC3w.any fun l => (scanUDQ l.data).isSome) &&
        (linesC3w.any fun l => (scanKey flowKey l.data).isSome) &&
        (linesC3w.any fun l => (scanKey velKey l.data).isSome) &&
        (linesC3w.any fun l => (scanKey fvelKey l.data).isSome)) :=
  c3_completeness linesC3w 1 Option.none (by with_unfolding_all decide)

theorem c4_missing_fields_recovered (t : ℚ) (st : LogState) (raw : String) (rest : List String)
    (h1 : (pyStrip raw).data.isEmpty = false) (h2 : fvelBoundary (pyStrip raw) = true)
    (h3 : parseBlock (st.buffer ++ [pyStrip raw]) t = Except.ok none) :
    logRun t st (raw :: rest) = logRun t ⟨[], st.rows, st.live⟩ rest :=
  logRun_cons_ok t st ⟨[], st.rows, st.live⟩ raw rest (logStep_drop t st raw h1 h2 h3)

theorem c4_cex :
    logRun 1 initLog linesC4 = (⟨bufC4, [], []⟩, some PyErr.valueError) := by
  with_unfolding_all decide

theorem c4_witness : logRun 1 initLog [rawC4w] = (initLog, none) := by
  rw [c4_missing_fields_recovered 1 initLog rawC4w [] (by decide) (by decide)
    (by with_unfolding_all decide)]
  rfl

theorem c5_witness :
    lastVal flowVal linesC5 = some recC5.flow ∧ lastVal velVal linesC5 = some recC5.vel :=
  ⟨(c5_last_match linesC5 7 recC5 (by with_unfolding_all decide)).2.2.2.2.1,
    (c5_last_match linesC5 7 recC5 (by with_unfolding_all decide)).2.2.2.2.2.1⟩

theorem c7_header_once (c : List (List String)) (t1 t2 : ℚ) (L1 L2 : List String) :
    initCsv (some c) = c ∧ initCsv none = [header] ∧
      sessionFile none t1 L1 = header :: sessRows t1 L1 ∧
      sessionFile (some (sessionFile none t1 L1)) t2 L2 =
        header :: (sessRows t1 L1 ++ sessRows t2 L2) ∧
      List.count header (sessionFile (some (sessionFile none t1 L1)) t2 L2) = 1 := by
  have hrow : ∀ (t : ℚ) (L : List String) (row : List String),
      row ∈ sessRows t L → row ≠ header := by
    intro t L row hmem
    rcases logRun_rows_mem t L initLog row hmem with hmem2 | ⟨r, rfl⟩
    · simp [initLog] at hmem2
    · exact csvRow_ne_header r
  have h4 : sessionFile (some (sessionFile none t1 L1)) t2 L2 =
      header :: (sessRows t1 L1 ++ sessRows t2 L2) := by
    simp [sessionFile, initCsv]
  refine ⟨rfl, rfl, rfl, h4, ?_⟩
  rw [h4]
  exact count_header_once _ fun row hmem =>
    (List.mem_append.mp hmem).elim (hrow t1 L1 row) (hrow t2 L2 row)

theorem c8_buffer_lifecycle :
    initLog.buffer = [] ∧
      (∀ (t : ℚ) (st : LogState) (raw : String), pyStrip raw = "" →
        logStep t st raw = (st, none)) ∧
      (∀ (t : ℚ) (st : LogState) (raw : String),
        (pyStrip raw).data.isEmpty = false → fvelBoundary (pyStrip raw) = false →
        (logStep t st raw).1.buffer = st.buffer ++ [pyStrip raw]) ∧
      (∀ (t : ℚ) (st : LogState) (raw : String) (res : Option Rec),
        (pyStrip raw).data.isEmpty = false → fvelBoundary (pyStrip raw) = true →
        parseBlock (st.buffer ++ [pyStrip raw]) t = Except.ok res →
        (logStep t st raw).1.buffer = [] ∧ (logStep t st raw).2 = none) := by
  refine ⟨rfl, logStep_blank, ?_, ?_⟩
  · intro t st raw h1 h2
    rw [logStep_plain t st raw h1 h2]
  · intro t st raw res h1 h2 h3
    cases res with
    | none => rw [logStep_drop t st raw h1 h2 h3]; exact ⟨rfl, rfl⟩
    | some r => rw [logStep_record t st raw r h1 h2 h3]; exact ⟨rfl, rfl⟩

theorem c8_cex :
    fvelBoundary (pyStrip rawC8x) = true ∧
      logStep 1 initLog rawC8x = (⟨[rawC8x], [], []⟩, some PyErr.valueError) := by
  refine ⟨by decide, by with_unfolding_all decide⟩

theorem c8_witness :
    logStep 1 initLog rawBlankW = (initLog, none) ∧
      (logStep 1 initLog rawPlainW).1.buffer = initLog.buffer ++ [pyStrip rawPlainW] ∧
      (logStep 1 initLog rawDropW).1.buffer = [] :=
  ⟨c8_buffer_lifecycle.2.1 1 initLog rawBlankW (by decide),
    c8_buffer_lifecycle.2.2.1 1 initLog rawPlainW (by decide) (by decide),
    (c8_buffer_lifecycle.2.2.2 1 initLog rawDropW Option.none (by decide) (by decide)
      (by with_unfolding_all decide)).1⟩

theorem c9_cex :
    parseBlock lines9 1 = Except.ok (some rec9) ∧
      lastMatchLine velMatch lines9 = some line9b ∧ fvelBoundary line9b = true ∧
      rec9.vel ≠ rec9.fvel := by
  refine ⟨by with_unfolding_all decide, by with_unfolding_all decide, by decide,
    by with_unfolding_all decide⟩

theorem c9_witness :
    (scanKey velKey line9w.data).isSome = true ∧ recA.vel = recA.fvel :=
  ⟨c9_pattern_overlap.1 line9w.data (by decide),
    c9_pattern_overlap.2 linesA (3/2) recA line9w d9w (by with_unfolding_all decide)
      (by with_unfolding_all decide) (by decide)⟩

theorem c10_extraction_raises :
    parseBlock linesNum10 1 = Except.error PyErr.valueError ∧
      parseBlock linesTs10 1 = Except.error PyErr.valueError := by
  refine ⟨by with_unfolding_all decide, by with_unfolding_all decide⟩
